import Mathlib

/-!
Verification of the SQL validation core of oss-data-analyst:
the quote normalizer, the statement-safety scanner, the semantic
validator (src/lib/sql/validate.ts) and the execution-error
classifiers (lib/execute/errors.ts).  JavaScript strings are embedded
as `List Char`; the character-level scanners are transliterated as
explicit state machines, and the concrete regular expressions of the
error classifiers as character-level matchers with the same
(leftmost, greedy, global) semantics.
-/

namespace SqlValidate

/-! ## Generic character/string helpers (JavaScript semantics) -/

/-- JavaScript whitespace for `trim` and `\s` (ASCII part). -/
def isJsSpace (c : Char) : Bool :=
  c = ' ' || c = '\t' || c = '\n' || c = '\r' || c = '\x0b' || c = '\x0c'

/-- `String.prototype.trim`: drop whitespace from both ends. -/
def jsTrim (l : List Char) : List Char :=
  ((l.dropWhile isJsSpace).reverse.dropWhile isJsSpace).reverse

/-- Case-insensitive prefix test (ASCII case folding, as used by the
`i` regex flag on the ASCII literals appearing in the source). -/
def startsWithCI : List Char → List Char → Bool
  | [], _ => true
  | _ :: _, [] => false
  | p :: ps, c :: cs => (Char.toLower c = Char.toLower p) && startsWithCI ps cs

/-- Case-insensitive substring test: models `/literal/i.test(msg)`. -/
def containsCI (pat : List Char) : List Char → Bool
  | [] => startsWithCI pat []
  | c :: cs => startsWithCI pat (c :: cs) || containsCI pat cs

/-- Word character for the `\b` regex boundary: `[A-Za-z0-9_]`. -/
def isWordChar (c : Char) : Bool :=
  (('a' ≤ c && c ≤ 'z') || ('A' ≤ c && c ≤ 'Z') || ('0' ≤ c && c ≤ '9') || c = '_')

/-- Does `\bw\b` (case-insensitive) match at the head of `s`, given the
character just before `s` (`none` at the start of the input)? -/
def wordMatchHere (w : List Char) (prev : Option Char) (s : List Char) : Bool :=
  (match prev with
   | none => true
   | some p => !isWordChar p) &&
  startsWithCI w s &&
  (match s.drop w.length with
   | [] => true
   | c :: _ => !isWordChar c)

/-- `/\bw\b/i.test(s)`: try every start position. -/
def hasWordCI (w : List Char) (prev : Option Char) : List Char → Bool
  | [] => false
  | c :: cs => wordMatchHere w prev (c :: cs) || hasWordCI w (some c) cs

/-- Count non-overlapping occurrences of the two-character sequence
`a b`, as `s.match(/ab/g)` counts them (left to right, skipping over
each match). -/
def countSub2 (a b : Char) : List Char → Nat
  | [] => 0
  | [_] => 0
  | x :: y :: rest =>
    if x = a && y = b then countSub2 a b rest + 1 else countSub2 a b (y :: rest)

/-! ## Data model (schema registry and finalized plan) -/

/-- A dimension of an entity: canonical name plus optional aliases. -/
structure DimensionJson where
  name : String
  aliases : Option (List String)
deriving DecidableEq, Repr

/-- A time dimension of an entity. -/
structure TimeDimensionJson where
  name : String
deriving DecidableEq, Repr

/-- A measure of an entity. -/
structure MeasureJson where
  name : String
deriving DecidableEq, Repr

/-- `EntityJson`: one entity of the schema registry, with the
precomputed lookup indexes the semantic validator consults
(`_dimIndex`, `_metricIndex`, `_measureIndex`, `_reverseAliasIndex`).
Sets are embedded as lists with membership lookup and the maps as
association lists. -/
structure EntityJson where
  name : String
  table : String
  dimensions : List DimensionJson
  time_dimensions : List TimeDimensionJson
  measures : List MeasureJson
  _dimIndex : List String
  _metricIndex : List String
  _measureIndex : List String
  _reverseAliasIndex : List (String × String)
deriving DecidableEq, Repr

/-- The registry: a `Map` from entity name to entity, embedded as an
association list in insertion order. -/
def Registry := List (String × EntityJson)

/-- `registry.has(e)`. -/
def registryHas (registry : Registry) (e : String) : Bool :=
  (registry : List (String × EntityJson)).any (fun p => p.1 = e)

/-- `registry.get(e)`. -/
def registryGet (registry : Registry) (e : String) : Option EntityJson :=
  match (registry : List (String × EntityJson)).find? (fun p => p.1 = e) with
  | some p => some p.2
  | none => none

/-- Association-list lookup for `Map.get` on `_reverseAliasIndex`. -/
def alistGet (m : List (String × String)) (k : String) : Option String :=
  match m.find? (fun p => p.1 = k) with
  | some p => some p.2
  | none => none

/-- `String.prototype.split` with a one-character separator (always
returns at least one, possibly empty, part). -/
def splitOnChar (sep : Char) : List Char → List (List Char)
  | [] => [[]]
  | c :: cs =>
    if c = sep then [] :: splitOnChar sep cs
    else
      match splitOnChar sep cs with
      | [] => [[c]]
      | p :: ps => (c :: p) :: ps

/-- A join edge of the finalized plan. -/
structure JoinEdge where
  «from» : String
  «to» : String
deriving DecidableEq, Repr

/-- The intent part of a finalized plan (`dimensions`/`metrics` may be
absent, as the source guards them with `?? []`; `timeRange` only
matters by presence). -/
structure PlanIntent where
  dimensions : Option (List String)
  metrics : Option (List String)
  timeRange : Option Unit
deriving DecidableEq, Repr

/-- A finalized query plan. -/
structure FinalizedPlan where
  selectedEntities : List String
  joinGraph : List JoinEdge
  intent : PlanIntent
deriving DecidableEq, Repr

/-! ## Quote normalizer (`normalizeSQLiteQuotes`) -/

/-- The known-identifier set built from the registry: entity name,
table name, every dimension name and alias, every time-dimension name,
every measure name, in registry iteration order. -/
def knownIdentifiers (registry : Registry) : List String :=
  (registry : List (String × EntityJson)).flatMap (fun p =>
    p.2.name :: p.2.table ::
      (p.2.dimensions.flatMap (fun d => d.name :: d.aliases.getD []) ++
       p.2.time_dimensions.map (fun td => td.name) ++
       p.2.measures.map (fun m => m.name)))

/-- The fixed SQL keyword list of the normalizer. -/
def sqlKeywords : List String :=
  ["select", "from", "where", "group", "by", "order", "having", "join",
   "left", "right", "inner", "outer", "on", "as", "and", "or", "not",
   "count", "sum", "avg", "min", "max", "distinct", "limit", "offset"]

/-- Character class of `/^[a-z_][a-z0-9_]*$/i`, first character. -/
def isIdentStart (c : Char) : Bool :=
  ('a' ≤ c && c ≤ 'z') || ('A' ≤ c && c ≤ 'Z') || c = '_'

/-- Character class of `/^[a-z_][a-z0-9_]*$/i`, later characters. -/
def isIdentChar (c : Char) : Bool :=
  isIdentStart c || ('0' ≤ c && c ≤ '9')

/-- `/^[a-z_][a-z0-9_]*$/i.test(token)`. -/
def matchesIdentPattern (t : List Char) : Bool :=
  match t with
  | [] => false
  | c :: cs => isIdentStart c && cs.all isIdentChar

/-- The known identifiers as character lists. -/
def knownChars (registry : Registry) : List (List Char) :=
  (knownIdentifiers registry).map (fun s => s.data)

/-- The `isIdentifier` classification of a double-quoted token:
exact known identifier, lowercased known identifier, SQL keyword
(lowercased), or lexical identifier pattern. -/
def isIdentifierToken (known : List (List Char)) (tok : List Char) : Bool :=
  known.contains tok ||
  known.contains (tok.map Char.toLower) ||
  (sqlKeywords.map (fun s => s.data)).contains (tok.map Char.toLower) ||
  matchesIdentPattern tok

/-- `token.replace(/'/g, "''")`: double every single quote. -/
def escapeSingle (t : List Char) : List Char :=
  t.flatMap (fun c => if c = '\'' then ['\'', '\''] else [c])

/-- Re-emission of one double-quoted token: kept double-quoted when
classified as identifier, otherwise single-quoted with internal
single quotes doubled. -/
def renderDQ (known : List (List Char)) (tok : List Char) : List Char :=
  if isIdentifierToken known tok then '"' :: (tok ++ ['"'])
  else '\'' :: (escapeSingle tok ++ ['\''])

/-- Scanner state of the normalizer: outside any quotes, inside a
single-quoted span (remembering the previous character, which the
source reads as `sql[i-1]`), or inside a double-quoted token
(accumulating its characters in reverse). -/
inductive ScanState where
  | outside : ScanState
  | inSQ (prev : Char) : ScanState
  | inDQ (acc : List Char) : ScanState
deriving DecidableEq, Repr

/-- The normalizer's single left-to-right scan.  Single-quoted spans
are copied verbatim until a closing quote not preceded by a backslash
(or end of input); double-quoted spans are extracted and re-emitted by
`renderDQ` (an unterminated one is still re-emitted, matching the
source, which steps past the missing closing quote). -/
def normScan (known : List (List Char)) : ScanState → List Char → List Char
  | .outside, [] => []
  | .outside, c :: cs =>
    if c = '\'' then c :: normScan known (.inSQ c) cs
    else if c = '"' then normScan known (.inDQ []) cs
    else c :: normScan known .outside cs
  | .inSQ _, [] => []
  | .inSQ prev, c :: cs =>
    if c = '\'' && prev ≠ '\\' then c :: normScan known .outside cs
    else c :: normScan known (.inSQ c) cs
  | .inDQ acc, [] => renderDQ known acc.reverse
  | .inDQ acc, c :: cs =>
    if c = '"' then renderDQ known acc.reverse ++ normScan known .outside cs
    else normScan known (.inDQ (c :: acc)) cs

/-- `normalizeSQLiteQuotes(sql, registry)`.  -/
def normalizeSQLiteQuotes (sql : String) (registry : Registry) : String :=
  ⟨normScan (knownChars registry) .outside sql.data⟩

/-- The sequence of double-quoted tokens the scan extracts, in order
(a trailing unterminated token included, as the source also extracts
and re-emits it). -/
def dqScan : ScanState → List Char → List (List Char)
  | .outside, [] => []
  | .outside, c :: cs =>
    if c = '\'' then dqScan (.inSQ c) cs
    else if c = '"' then dqScan (.inDQ []) cs
    else dqScan .outside cs
  | .inSQ _, [] => []
  | .inSQ prev, c :: cs =>
    if c = '\'' && prev ≠ '\\' then dqScan .outside cs
    else dqScan (.inSQ c) cs
  | .inDQ acc, [] => [acc.reverse]
  | .inDQ acc, c :: cs =>
    if c = '"' then acc.reverse :: dqScan .outside cs
    else dqScan (.inDQ (c :: acc)) cs

/-- The double-quoted tokens of an input, from the initial state. -/
def dqTokens (l : List Char) : List (List Char) :=
  dqScan .outside l

/-- Whether every double-quoted span of the input has a closing quote
(the scan never ends inside a double-quoted token). -/
def dqClosed : ScanState → List Char → Bool
  | .outside, [] => true
  | .outside, c :: cs =>
    if c = '\'' then dqClosed (.inSQ c) cs
    else if c = '"' then dqClosed (.inDQ []) cs
    else dqClosed .outside cs
  | .inSQ _, [] => true
  | .inSQ prev, c :: cs =>
    if c = '\'' && prev ≠ '\\' then dqClosed .outside cs
    else dqClosed (.inSQ c) cs
  | .inDQ _, [] => false
  | .inDQ acc, c :: cs =>
    if c = '"' then dqClosed .outside cs
    else dqClosed (.inDQ (c :: acc)) cs

/-! ## Statement safety scanner (`syntaxScan`) -/

/-- The result shape returned by the scanners. -/
structure ScanResult where
  ok : Bool
  issues : List String
deriving DecidableEq, Repr

/-- The disallowed destructive/DDL/DML keywords, in source order. -/
def DISALLOWED : List String :=
  ["DROP", "TRUNCATE", "ALTER", "CREATE", "INSERT", "UPDATE",
   "DELETE", "MERGE", "COPY", "PUT", "GET"]

/-- The multi-statement condition on the trimmed text: more than one
semicolon, or exactly one that is not the final character. -/
def multiStmtCond (sql : String) : Bool :=
  let t := jsTrim sql.data
  let semis := t.count ';'
  decide (1 < semis) || (decide (semis = 1) && !(t.getLast? = some ';'))

/-- `syntaxScan(sql)`: multi-statement guard on the trimmed text, then
the disallowed-keyword guard (`/\bKW\b/i` per keyword, each match a
distinct issue), then the block-comment balance check.  `ok` is true
exactly when no issue was pushed. -/
def syntaxScan (sql : String) : ScanResult :=
  let multiIssues :=
    if multiStmtCond sql then ["Multiple statements detected."] else []
  let disIssues :=
    (DISALLOWED.filter (fun kw => hasWordCI kw.data none sql.data)).map
      (fun kw => "Disallowed token: \\b" ++ kw ++ "\\b")
  let commentIssues :=
    if countSub2 '/' '*' sql.data ≠ countSub2 '*' '/' sql.data then
      ["Unclosed or unmatched block comment."]
    else []
  let issues := multiIssues ++ disIssues ++ commentIssues
  ⟨issues.isEmpty, issues⟩

/-! ## Semantic validator (`semanticCheck`) -/

/-- The result shape of the semantic validator. -/
structure SemanticResult where
  ok : Bool
  issues : List String
  semanticOk : Bool
deriving DecidableEq, Repr

/-- Modelled from the spec: the external `verifyAllowedTables` policy
collaborator (src/lib/security/policy, not part of this core) either
returns normally or raises an error whose message the validator
catches; its outcome for the given registry is passed in as an
`Except String Unit` value. -/
def PolicyOutcome := Except String Unit

/-- `existsInAnyEntity(name, checkDimensions, checkTime)`: field
resolution for dimensions.  A dotted `entity.field` reference resolves
only inside the named entity; a bare name resolves against every
entity.  A field resolves through the dimension index, the
time-dimension names, or the reverse-alias map to a canonical field
checked the same way (an empty canonical name is falsy in the source
and is skipped). -/
def existsInAnyEntity (registry : Registry) (name : String)
    (checkDimensions : Bool := true) (checkTime : Bool := true) : Bool :=
  let fieldIn := fun (ent : EntityJson) (field : String) =>
    (checkDimensions && ent._dimIndex.contains field) ||
    (checkTime && ent.time_dimensions.any (fun td => td.name = field)) ||
    (match alistGet ent._reverseAliasIndex field with
     | some canonical =>
       !(canonical = "") &&
       ((checkDimensions && ent._dimIndex.contains canonical) ||
        (checkTime && ent.time_dimensions.any (fun td => td.name = canonical)))
     | none => false)
  if name.data.contains '.' then
    let parts := splitOnChar '.' name.data
    let entityName : String := ⟨parts.headD []⟩
    let fieldName : String := ⟨(parts.drop 1).headD []⟩
    match registryGet registry entityName with
    | none => false
    | some ent => fieldIn ent fieldName
  else
    (registry : List (String × EntityJson)).any (fun p => fieldIn p.2 name)

/-- `metricOrMeasureExists(name)`: like dimension resolution but over
the metric and measure indexes (with alias resolution). -/
def metricOrMeasureExists (registry : Registry) (name : String) : Bool :=
  let fieldIn := fun (ent : EntityJson) (field : String) =>
    ent._metricIndex.contains field || ent._measureIndex.contains field ||
    (match alistGet ent._reverseAliasIndex field with
     | some canonical =>
       !(canonical = "") &&
       (ent._metricIndex.contains canonical || ent._measureIndex.contains canonical)
     | none => false)
  if name.data.contains '.' then
    let parts := splitOnChar '.' name.data
    let entityName : String := ⟨parts.headD []⟩
    let fieldName : String := ⟨(parts.drop 1).headD []⟩
    match registryGet registry entityName with
    | none => false
    | some ent => fieldIn ent fieldName
  else
    (registry : List (String × EntityJson)).any (fun p => fieldIn p.2 name)

/-- `semanticCheck(plan, sql, registry)` with the external allow-list
policy outcome passed explicitly (a raised error is caught and pushed
as an ordinary issue, which is what the source's `try`/`catch` does).
All checks accumulate into one issue list; `ok` and `semanticOk` are
true exactly when that list is empty. -/
def semanticCheck (policy : PolicyOutcome) (plan : FinalizedPlan)
    (_sql : String) (registry : Registry) : SemanticResult :=
  let policyIssues : List String :=
    match policy with
    | .error m => [m]
    | .ok _ => []
  let entityIssues :=
    plan.selectedEntities.filterMap (fun e =>
      if registryHas registry e then none
      else some ("Selected entity \"" ++ e ++ "\" not loaded."))
  let joinIssues :=
    plan.joinGraph.flatMap (fun j =>
      (if registryHas registry j.«from» then []
       else ["Join edge from missing entity \"" ++ j.«from» ++ "\"."]) ++
      (if registryHas registry j.«to» then []
       else ["Join edge to missing entity \"" ++ j.«to» ++ "\"."]))
  let dimIssues :=
    (plan.intent.dimensions.getD []).filterMap (fun d =>
      if existsInAnyEntity registry d then none
      else some ("Dimension \"" ++ d ++ "\" not found in selected entities or aliases."))
  let metricIssues :=
    (plan.intent.metrics.getD []).filterMap (fun m =>
      if metricOrMeasureExists registry m then none
      else some ("Metric/measure \"" ++ m ++ "\" not found in selected entities or aliases."))
  let timeIssues :=
    if plan.intent.timeRange.isSome then
      if (registry : List (String × EntityJson)).any
          (fun p => 0 < p.2.time_dimensions.length) then []
      else ["Time range provided but no time dimensions available."]
    else []
  let issues := policyIssues ++ entityIssues ++ joinIssues ++ dimIssues ++ metricIssues ++ timeIssues
  ⟨issues.isEmpty, issues, issues.isEmpty⟩


/-- The single-quoted span consumed by the scanner from inside a
single-quoted string, given the previous character: the copied span
(including the closing quote when found) and the remaining input. -/
def spanSQ : Char → List Char → List Char × List Char
  | _, [] => ([], [])
  | prev, c :: cs =>
    if c = '\'' && prev ≠ '\\' then ([c], cs)
    else
      let r := spanSQ c cs
      (c :: r.1, r.2)

/-! ## Error classifiers (lib/execute/errors.ts) -/

/-- The structured result of the column-not-found classifier. -/
structure ColumnNotFoundInfo where
  missingColumns : List String
deriving DecidableEq, Repr

/-- The structured result of the quote-syntax classifier (the source
never sets `needsDoubleQuotes`). -/
structure QuoteSyntaxInfo where
  message : String
  needsSingleQuotes : Option Bool
  needsDoubleQuotes : Option Bool
deriving DecidableEq, Repr

/-- The quote character class `['"]` / `[^'"]` of the classifier
regexes. -/
def isQuoteCh (c : Char) : Bool := c = '\'' || c = '"'

def invalidIdentLit : List Char := "invalid identifier".data

/-- One attempt of `/invalid identifier\s*['"]([^'"]+)['"]/i` anchored
at the head of `s`: on success, the capture and the input remaining
after the whole match. -/
def matchInvalidIdentHere (s : List Char) : Option (List Char × List Char) :=
  if startsWithCI invalidIdentLit s then
    let s2 := (s.drop invalidIdentLit.length).dropWhile isJsSpace
    match s2 with
    | q :: s3 =>
      if isQuoteCh q then
        let cap := s3.takeWhile (fun c => !isQuoteCh c)
        match s3.dropWhile (fun c => !isQuoteCh c) with
        | _ :: rest => if cap.isEmpty then none else some (cap, rest)
        | [] => none
      else none
    | [] => none
  else none

/-- The global (`g` flag) scan collecting every capture of the
invalid-identifier pattern, left to right, resuming after each match.
The fuel argument starts at the input length, which each step strictly
decreases below, so the recursion never runs dry. -/
def collectInvalidIdentsAux : Nat → List Char → List (List Char)
  | 0, _ => []
  | _ + 1, [] => []
  | fuel + 1, c :: cs =>
    match matchInvalidIdentHere (c :: cs) with
    | some (cap, rest) => cap :: collectInvalidIdentsAux fuel rest
    | none => collectInvalidIdentsAux fuel cs

/-- All captures of `/invalid identifier\s*['"]([^'"]+)['"]/gi`. -/
def collectInvalidIdents (s : List Char) : List (List Char) :=
  collectInvalidIdentsAux s.length s

/-- `Array.from(new Set(xs))`: deduplication keeping the first
occurrence of each element, in first-seen order. -/
def dedupKeepFirst (seen : List String) : List String → List String
  | [] => []
  | x :: xs =>
    if x ∈ seen then dedupKeepFirst seen xs
    else x :: dedupKeepFirst (x :: seen) xs

def columnLit : List Char := "column ".data

def notFoundLit : List Char := " not found".data

/-- What the `.` regex class matches (anything but a line terminator). -/
def notNewline (c : Char) : Bool :=
  !(c = '\n' || c = '\r' || c = '\u2028' || c = '\u2029')

/-- Can `.*` followed by the literal `pat` match this suffix? -/
def dotStarThen (pat : List Char) : List Char → Bool
  | [] => startsWithCI pat []
  | c :: cs => startsWithCI pat (c :: cs) || (notNewline c && dotStarThen pat cs)

/-- `/column .* not found/i.test(msg)`. -/
def testColumnDotStar : List Char → Bool
  | [] => false
  | c :: cs =>
    (startsWithCI columnLit (c :: cs) &&
      dotStarThen notFoundLit ((c :: cs).drop columnLit.length)) ||
    testColumnDotStar cs

/-- The first (leftmost) capture of `/column ([^ ]+) not found/i`. -/
def captureColumnFallback : List Char → Option (List Char)
  | [] => none
  | c :: cs =>
    if startsWithCI columnLit (c :: cs) then
      let t := (c :: cs).drop columnLit.length
      let cap := t.takeWhile (fun x => !(x = ' '))
      if !cap.isEmpty && startsWithCI notFoundLit (t.drop cap.length) then some cap
      else captureColumnFallback cs
    else captureColumnFallback cs

/-- `c.replace(/["']/g, "")`: remove every quote character. -/
def stripQuotesAll (s : List Char) : List Char :=
  s.filter (fun c => !isQuoteCh c)

/-- `isColumnNotFound(err)` on the stringified message: collect all
invalid-identifier captures deduplicated in first-seen order; when
there is none, fall back to the `column <name> not found` pattern
(tested with `.*`, captured with `[^ ]+`), quote characters removed
from the captured name. -/
def isColumnNotFound (msg : String) : Option ColumnNotFoundInfo :=
  let caps := (collectInvalidIdents msg.data).map (fun l => (⟨l⟩ : String))
  if !caps.isEmpty then some ⟨dedupKeepFirst [] caps⟩
  else if testColumnDotStar msg.data then
    match captureColumnFallback msg.data with
    | some c => some ⟨[⟨stripQuotesAll c⟩]⟩
    | none => some ⟨[]⟩
  else none

def unrecognizedLit : List Char := "unrecognized token".data

def noSuchColumnLit : List Char := "no such column".data

def noSuchColumnColonLit : List Char := "no such column:".data

def syntaxErrorLit : List Char := "syntax error".data

def nearLit : List Char := "near".data

/-- One attempt of `/no such column:\s*["']([^"']+)["']/i` anchored at
the head of `s`. -/
def matchNoSuchColumnHere (s : List Char) : Option (List Char) :=
  if startsWithCI noSuchColumnColonLit s then
    let s2 := (s.drop noSuchColumnColonLit.length).dropWhile isJsSpace
    match s2 with
    | q :: s3 =>
      if isQuoteCh q then
        let cap := s3.takeWhile (fun c => !isQuoteCh c)
        match s3.dropWhile (fun c => !isQuoteCh c) with
        | _ :: _ => if cap.isEmpty then none else some cap
        | [] => none
      else none
    | [] => none
  else none

/-- The leftmost capture of `/no such column:\s*["']([^"']+)["']/i`. -/
def noSuchColumnCapture : List Char → Option (List Char)
  | [] => none
  | c :: cs =>
    match matchNoSuchColumnHere (c :: cs) with
    | some cap => some cap
    | none => noSuchColumnCapture cs

/-- `/^[A-Z_]+$/.test(t)` (case-sensitive, anchored). -/
def isAllCapsUnderscore (t : List Char) : Bool :=
  !t.isEmpty && t.all (fun c => ('A' ≤ c && c ≤ 'Z') || c = '_')

/-- The source heuristic on a captured column name:
`colName[0] === colName[0].toUpperCase() && !/^[A-Z_]+$/.test(colName)`
(the capture is never empty). -/
def quoteHeuristic (col : List Char) : Bool :=
  match col with
  | [] => false
  | c :: _ => (Char.toUpper c = c) && !isAllCapsUnderscore col

/-- `isQuoteSyntaxError(err)` on the stringified message: (a)
"unrecognized token" with a double quote; else (b) a "no such column"
message whose captured column name passes the heuristic; else (c)
"syntax error" or "near" with a double quote. -/
def isQuoteSyntaxError (msg : String) : Option QuoteSyntaxInfo :=
  let m := msg.data
  if containsCI unrecognizedLit m && m.contains '"' then
    some ⟨msg, some true, none⟩
  else if containsCI noSuchColumnLit m &&
      (match noSuchColumnCapture m with
       | some col => quoteHeuristic col
       | none => false) then
    some ⟨msg, some true, none⟩
  else if (containsCI syntaxErrorLit m || containsCI nearLit m) && m.contains '"' then
    some ⟨msg, some true, none⟩
  else none

/-! ## Concrete fixtures for the claims -/

/-- An entity with no dimensions, time dimensions or measures. -/
def emptyEntity (n : String) : EntityJson :=
  ⟨n, n, [], [], [], [], [], [], []⟩

/-- The two-entity registry of the entity-not-loaded scenario. -/
def twoEntityRegistry : Registry :=
  [("customers", emptyEntity "customers"), ("products", emptyEntity "products")]

/-- The plan that selects only the entity `orders`. -/
def ordersPlan : FinalizedPlan :=
  ⟨["orders"], [], ⟨none, none, none⟩⟩

/-- Entity `customers` with canonical dimension `country` aliased
`region` (the reverse-alias index maps the alias to the canonical
name, as the registry loader precomputes it). -/
def customersEntity : EntityJson :=
  { name := "customers", table := "customers",
    dimensions := [⟨"country", some ["region"]⟩],
    time_dimensions := [], measures := [],
    _dimIndex := ["country"], _metricIndex := [], _measureIndex := [],
    _reverseAliasIndex := [("region", "country")] }

/-- The one-entity registry of the alias-resolution scenario. -/
def aliasRegistry : Registry := [("customers", customersEntity)]

/-- The plan requesting the bare dimension `region`. -/
def aliasPlan : FinalizedPlan :=
  ⟨["customers"], [], ⟨some ["region"], some [], none⟩⟩

/-- The empty registry. -/
def emptyRegistry : Registry := []

/-- An entity whose dimension name `Some Name` is stored with mixed
case and contains a space (so it is outside the lexical identifier
pattern). -/
def mixedCaseEntity : EntityJson :=
  { name := "e", table := "t",
    dimensions := [⟨"Some Name", none⟩],
    time_dimensions := [], measures := [],
    _dimIndex := ["Some Name"], _metricIndex := [], _measureIndex := [],
    _reverseAliasIndex := [] }

/-- The registry holding `mixedCaseEntity`. -/
def mixedCaseRegistry : Registry := [("e", mixedCaseEntity)]

/-! ## Lemmas about the statement safety scanner -/

theorem mem_if_singleton {c : Prop} [Decidable c] {x a : String}
    (h : a ∈ (if c then [x] else ([] : List String))) : a = x := by
  by_cases hc : c
  · simpa [hc] using h
  · simp [hc] at h

theorem syntaxScan_ok_eq (sql : String) :
    (syntaxScan sql).ok = (syntaxScan sql).issues.isEmpty := rfl

/-- The multiple-statements issue is in the issue list exactly when the
multi-statement condition holds: the other two checks push different
strings. -/
theorem mem_syntaxScan_multi (sql : String) :
    "Multiple statements detected." ∈ (syntaxScan sql).issues ↔
      multiStmtCond sql = true := by
  unfold syntaxScan
  simp only [List.mem_append]
  constructor
  · rintro ((h | h) | h)
    · by_cases hc : multiStmtCond sql = true
      · exact hc
      · simp [hc] at h
    · rcases List.mem_map.mp h with ⟨kw, hkw, heq⟩
      have hkw' : kw ∈ DISALLOWED := (List.mem_filter.mp hkw).1
      simp only [DISALLOWED, List.mem_cons, List.not_mem_nil, or_false] at hkw'
      rcases hkw' with rfl | rfl | rfl | rfl | rfl | rfl | rfl | rfl | rfl | rfl | rfl <;>
        exact absurd heq (by decide)
    · have := mem_if_singleton h
      exact absurd this (by decide)
  · intro hc
    exact Or.inl (Or.inl (by simp [hc]))

/-- Restatement of the multi-statement condition in terms of the
semicolon count of the trimmed text and its last character. -/
theorem multiStmtCond_iff (sql : String) :
    multiStmtCond sql = true ↔
      (1 < (jsTrim sql.data).count ';' ∨
       ((jsTrim sql.data).count ';' = 1 ∧ (jsTrim sql.data).getLast? ≠ some ';')) := by
  simp [multiStmtCond]

/-! ## Claim theorems: statement safety scanner -/

/-- C1: `syntaxScan` (`scanStatementSafety`) reports a
multiple-statements issue with `ok = false` exactly when the trimmed
text has more than one semicolon, or exactly one semicolon that is not
its final character; `"SELECT 1; SELECT 2"` is rejected with that
issue and `"SELECT 1;"` passes. -/
theorem C1_multi_statement_guard :
    (∀ sql : String,
      ("Multiple statements detected." ∈ (syntaxScan sql).issues ∧
        (syntaxScan sql).ok = false) ↔
        (1 < (jsTrim sql.data).count ';' ∨
         ((jsTrim sql.data).count ';' = 1 ∧ (jsTrim sql.data).getLast? ≠ some ';'))) ∧
    syntaxScan "SELECT 1; SELECT 2" =
      ⟨false, ["Multiple statements detected."]⟩ ∧
    (syntaxScan "SELECT 1;").ok = true := by
  refine ⟨fun sql => ?_, by decide, by decide⟩
  rw [← multiStmtCond_iff]
  constructor
  · intro h
    exact (mem_syntaxScan_multi sql).mp h.1
  · intro hc
    have hmem := (mem_syntaxScan_multi sql).mpr hc
    refine ⟨hmem, ?_⟩
    rw [syntaxScan_ok_eq]
    exact Bool.eq_false_iff.mpr (by
      rw [Ne, List.isEmpty_iff]
      exact fun hnil => (List.ne_nil_of_mem hmem) hnil)

/-- C10: the semicolon count of `syntaxScan` is taken over the raw
trimmed text, so a semicolon inside a single-quoted string literal
also counts: the issue appears exactly under the raw-count condition,
and the single-statement query `SELECT 'a;b' FROM t` is rejected with
a multiple-statements issue. -/
theorem C10_semicolon_in_literal_counts :
    (∀ sql : String,
      "Multiple statements detected." ∈ (syntaxScan sql).issues ↔
        (1 < (jsTrim sql.data).count ';' ∨
         ((jsTrim sql.data).count ';' = 1 ∧ (jsTrim sql.data).getLast? ≠ some ';'))) ∧
    syntaxScan "SELECT 'a;b' FROM t" =
      ⟨false, ["Multiple statements detected."]⟩ := by
  refine ⟨fun sql => ?_, by decide⟩
  rw [← multiStmtCond_iff]
  exact mem_syntaxScan_multi sql

/-! ## Claim theorems: semantic validator -/

/-- C2: every selected entity missing from the registry contributes a
"not loaded" issue, and the plan selecting only `orders` against the
two-entity registry `{customers, products}` yields exactly one such
issue and `ok = false`. -/
theorem C2_entity_not_loaded :
    (∀ (policy : PolicyOutcome) (plan : FinalizedPlan) (sql : String)
       (registry : Registry) (e : String),
      e ∈ plan.selectedEntities → registryHas registry e = false →
      ("Selected entity \"" ++ e ++ "\" not loaded.") ∈
        (semanticCheck policy plan sql registry).issues) ∧
    semanticCheck (.ok ()) ordersPlan "SELECT 1" twoEntityRegistry =
      ⟨false, ["Selected entity \"orders\" not loaded."], false⟩ := by
  constructor
  · intro policy plan sql registry e hmem hhas
    unfold semanticCheck
    simp only [List.mem_append]
    refine Or.inl (Or.inl (Or.inl (Or.inl (Or.inr ?_))))
    exact List.mem_filterMap.mpr ⟨e, hmem, by simp [hhas]⟩
  · decide

/-- C6: a bare dimension reference that is a registered alias resolves
through the reverse-alias map to its canonical field: the plan with
`intent.dimensions = ["region"]`, where `region` aliases the canonical
dimension `country` of entity `customers`, passes the semantic check
with `ok = true` and an empty issue list. -/
theorem C6_alias_resolution :
    semanticCheck (.ok ()) aliasPlan "SELECT country FROM customers" aliasRegistry =
      ⟨true, [], true⟩ ∧
    existsInAnyEntity aliasRegistry "region" = true ∧
    alistGet customersEntity._reverseAliasIndex "region" = some "country" := by
  decide

/-- C7: the semantic validator always returns an aggregate result: an
error outcome of the external allow-list policy becomes an ordinary
issue string, and `ok`/`semanticOk` are true exactly when the
accumulated issue list is empty. -/
theorem C7_validator_aggregates :
    ∀ (policy : PolicyOutcome) (plan : FinalizedPlan) (sql : String)
      (registry : Registry),
      ((semanticCheck policy plan sql registry).ok = true ↔
        (semanticCheck policy plan sql registry).issues = []) ∧
      (semanticCheck policy plan sql registry).semanticOk =
        (semanticCheck policy plan sql registry).ok ∧
      (∀ m : String, policy = .error m →
        m ∈ (semanticCheck policy plan sql registry).issues) := by
  intro policy plan sql registry
  refine ⟨?_, rfl, ?_⟩
  · show ((semanticCheck policy plan sql registry).issues.isEmpty = true) ↔ _
    exact List.isEmpty_iff
  · intro m hm
    subst hm
    unfold semanticCheck
    simp

/-- Witness for C2 at the concrete scenario. -/
theorem C2_entity_not_loaded_witness :
    "orders" ∈ ordersPlan.selectedEntities ∧
    registryHas twoEntityRegistry "orders" = false ∧
    ("Selected entity \"orders\" not loaded.") ∈
      (semanticCheck (.ok ()) ordersPlan "SELECT 1" twoEntityRegistry).issues :=
  ⟨by decide, by decide,
    C2_entity_not_loaded.1 (.ok ()) ordersPlan "SELECT 1" twoEntityRegistry
      "orders" (by decide) (by decide)⟩

/-- Witness for C7 at a concrete erroring policy outcome. -/
theorem C7_validator_aggregates_witness :
    ((Except.error "tables not allowed" : PolicyOutcome) =
      Except.error "tables not allowed") ∧
    "tables not allowed" ∈
      (semanticCheck (.error "tables not allowed") ordersPlan "SELECT 1"
        twoEntityRegistry).issues :=
  ⟨rfl,
    (C7_validator_aggregates (.error "tables not allowed") ordersPlan "SELECT 1"
      twoEntityRegistry).2.2 "tables not allowed" rfl⟩


/-! ## List lemmas for the scanner proofs -/

theorem mem_takeWhile_bool {p : Char → Bool} :
    ∀ (l : List Char) (x : Char), x ∈ l.takeWhile p → p x = true := by
  intro l
  induction l with
  | nil => intro x h; simp [List.takeWhile] at h
  | cons c cs ih =>
    intro x h
    by_cases hc : p c = true
    · rw [List.takeWhile_cons_of_pos hc] at h
      rcases h with _ | h
      · exact hc
      · exact ih x (by assumption)
    · rw [List.takeWhile_cons_of_neg hc] at h
      simp at h
  
theorem dropWhile_head_false {p : Char → Bool} :
    ∀ (l : List Char) (x : Char) (xs : List Char),
      l.dropWhile p = x :: xs → p x = false := by
  intro l
  induction l with
  | nil => intro x xs h; simp [List.dropWhile] at h
  | cons c cs ih =>
    intro x xs h
    by_cases hc : p c = true
    · rw [List.dropWhile_cons_of_pos hc] at h
      exact ih x xs h
    · rw [List.dropWhile_cons_of_neg hc] at h
      cases h
      exact Bool.eq_false_iff.mpr hc

theorem takeWhile_append_stop {p : Char → Bool} (tok : List Char)
    (htok : ∀ x ∈ tok, p x = true) (q : Char) (hq : p q = false) (X : List Char) :
    (tok ++ q :: X).takeWhile p = tok := by
  induction tok with
  | nil =>
    simp only [List.nil_append]
    exact List.takeWhile_cons_of_neg (by simp [hq])
  | cons c cs ih =>
    have hc : p c = true := htok c (by simp)
    simp only [List.cons_append, List.takeWhile_cons_of_pos hc]
    rw [ih (fun x hx => htok x (by simp [hx]))]

theorem dropWhile_append_stop {p : Char → Bool} (tok : List Char)
    (htok : ∀ x ∈ tok, p x = true) (q : Char) (hq : p q = false) (X : List Char) :
    (tok ++ q :: X).dropWhile p = q :: X := by
  induction tok with
  | nil =>
    simp only [List.nil_append]
    exact List.dropWhile_cons_of_neg (by simp [hq])
  | cons c cs ih =>
    have hc : p c = true := htok c (by simp)
    simp only [List.cons_append, List.dropWhile_cons_of_pos hc]
    exact ih (fun x hx => htok x (by simp [hx]))

theorem isInfix_append_left {xs l : List Char} (pre : List Char)
    (h : xs <:+: l) : xs <:+: pre ++ l := by
  obtain ⟨s, t, hst⟩ := h
  exact ⟨pre ++ s, t, by rw [← hst]; simp⟩

theorem isInfix_cons {xs l : List Char} (c : Char) (h : xs <:+: l) :
    xs <:+: c :: l :=
  isInfix_append_left [c] h

/-! ## The scanner emits every double-quoted token through `renderDQ` -/

/-- Every double-quoted token the scan extracts appears in the output
re-emitted by `renderDQ`. -/
theorem renderDQ_infix_of_mem (known : List (List Char)) :
    ∀ (l : List Char) (st : ScanState) (tok : List Char),
      tok ∈ dqScan st l → renderDQ known tok <:+: normScan known st l := by
  intro l
  induction l with
  | nil =>
    intro st tok h
    cases st with
    | outside => simp [dqScan] at h
    | inSQ prev => simp [dqScan] at h
    | inDQ acc =>
      simp only [dqScan, List.mem_singleton] at h
      subst h
      exact ⟨[], [], by simp [normScan]⟩
  | cons c cs ih =>
    intro st tok h
    cases st with
    | outside =>
      by_cases h1 : c = '\''
      · simp only [dqScan, normScan, if_pos h1] at h ⊢
        exact isInfix_cons _ (ih _ _ h)
      · by_cases h2 : c = '"'
        · simp only [dqScan, normScan, if_neg h1, if_pos h2] at h ⊢
          exact ih _ _ h
        · simp only [dqScan, normScan, if_neg h1, if_neg h2] at h ⊢
          exact isInfix_cons _ (ih _ _ h)
    | inSQ prev =>
      by_cases hb : (c = '\'' && prev ≠ '\\') = true
      · simp only [dqScan, normScan, if_pos hb] at h ⊢
        exact isInfix_cons _ (ih _ _ h)
      · simp only [dqScan, normScan, if_neg hb] at h ⊢
        exact isInfix_cons _ (ih _ _ h)
    | inDQ acc =>
      by_cases h2 : c = '"'
      · simp only [dqScan, normScan, if_pos h2, List.mem_cons] at h ⊢
        rcases h with rfl | h
        · exact ⟨[], normScan known .outside cs, by simp⟩
        · exact isInfix_append_left _ (ih _ _ h)
      · simp only [dqScan, normScan, if_neg h2] at h ⊢
        exact ih _ _ h

/-! ## Identity of the scan on well-classified, well-terminated input -/

/-- When every double-quoted token of the remaining input is classified
as an identifier and every double-quoted span is closed, the scan
reproduces its input (from inside a token, it reproduces the token
opener and the consumed characters as well). -/
theorem normScan_id (known : List (List Char)) :
    ∀ (l : List Char) (st : ScanState),
      (∀ tok ∈ dqScan st l, isIdentifierToken known tok = true) →
      dqClosed st l = true →
      normScan known st l =
        (match st with
         | .inDQ acc => '"' :: (acc.reverse ++ l)
         | _ => l) := by
  intro l
  induction l with
  | nil =>
    intro st h1 h2
    cases st with
    | outside => simp [normScan]
    | inSQ prev => simp [normScan]
    | inDQ acc => simp [dqClosed] at h2
  | cons c cs ih =>
    intro st h1 h2
    cases st with
    | outside =>
      by_cases hc1 : c = '\''
      · simp only [dqScan, dqClosed, if_pos hc1] at h1 h2
        simp only [normScan, if_pos hc1]
        rw [ih (.inSQ c) h1 h2]
      · by_cases hc2 : c = '"'
        · simp only [dqScan, dqClosed, if_neg hc1, if_pos hc2] at h1 h2
          simp only [normScan, if_neg hc1, if_pos hc2]
          rw [ih (.inDQ []) h1 h2]
          simp [hc2]
        · simp only [dqScan, dqClosed, if_neg hc1, if_neg hc2] at h1 h2
          simp only [normScan, if_neg hc1, if_neg hc2]
          rw [ih .outside h1 h2]
    | inSQ prev =>
      by_cases hb : (c = '\'' && prev ≠ '\\') = true
      · simp only [dqScan, dqClosed, if_pos hb] at h1 h2
        simp only [normScan, if_pos hb]
        rw [ih .outside h1 h2]
      · simp only [dqScan, dqClosed, if_neg hb] at h1 h2
        simp only [normScan, if_neg hb]
        rw [ih (.inSQ c) h1 h2]
    | inDQ acc =>
      by_cases hc2 : c = '"'
      · simp only [dqScan, dqClosed, if_pos hc2] at h1 h2
        have hid : isIdentifierToken known acc.reverse = true :=
          h1 acc.reverse (by simp)
        simp only [normScan, if_pos hc2]
        rw [ih .outside (fun tok ht => h1 tok (by simp [ht])) h2]
        simp [renderDQ, hid, hc2]
      · simp only [dqScan, dqClosed, if_neg hc2] at h1 h2
        simp only [normScan, if_neg hc2]
        rw [ih (.inDQ (c :: acc)) h1 h2]
        simp


/-! ## Claim theorems: quote normalizer, token classification -/

/-- C3 counterexample: the dimension name `Some Name` is a known
identifier; the double-quoted token `SOME NAME` is equal to it up to
letter case (both lowercase to `some name`), yet normalization
rewrites it to a single-quoted literal, with no double quote left in
the output at all. -/
theorem C3_counterexample_case_variant :
    "Some Name" ∈ knownIdentifiers mixedCaseRegistry ∧
    dqTokens ("SELECT \"SOME NAME\"").data = [("SOME NAME").data] ∧
    ("SOME NAME").data.map Char.toLower = ("Some Name").data.map Char.toLower ∧
    normalizeSQLiteQuotes "SELECT \"SOME NAME\"" mixedCaseRegistry =
      "SELECT 'SOME NAME'" ∧
    '"' ∉ (normalizeSQLiteQuotes "SELECT \"SOME NAME\"" mixedCaseRegistry).data := by
  decide

/-- C3 (amended): a double-quoted token that is exactly a known
identifier, or whose lowercased form is exactly a known identifier, is
kept double-quoted in the output (any other token matching the lexical
identifier pattern is also kept, which the counterexample shows is the
only reach of case-insensitivity here). -/
theorem C3_known_token_kept_double_quoted :
    ∀ (registry : Registry) (sql : String) (tok : List Char),
      tok ∈ dqTokens sql.data →
      ((knownChars registry).contains tok = true ∨
       (knownChars registry).contains (tok.map Char.toLower) = true) →
      ('"' :: (tok ++ ['"'])) <:+: (normalizeSQLiteQuotes sql registry).data := by
  intro registry sql tok hmem hknown
  have hid : isIdentifierToken (knownChars registry) tok = true := by
    rcases hknown with h | h <;>
      simp only [isIdentifierToken, h, Bool.true_or, Bool.or_true]
  have hmem2 : tok ∈ dqScan .outside sql.data := hmem
  have h3 := renderDQ_infix_of_mem (knownChars registry) sql.data .outside tok hmem2
  have hrd : renderDQ (knownChars registry) tok = '"' :: (tok ++ ['"']) := by
    unfold renderDQ
    rw [if_pos hid]
  rw [hrd] at h3
  exact h3

/-- Witness for C3 at a concrete known mixed-case token. -/
theorem C3_known_token_kept_double_quoted_witness :
    ("Some Name").data ∈ dqTokens ("SELECT \"Some Name\"").data ∧
    (knownChars mixedCaseRegistry).contains ("Some Name").data = true ∧
    ('"' :: (("Some Name").data ++ ['"'])) <:+:
      (normalizeSQLiteQuotes "SELECT \"Some Name\"" mixedCaseRegistry).data :=
  ⟨by decide, by decide,
    C3_known_token_kept_double_quoted mixedCaseRegistry "SELECT \"Some Name\""
      ("Some Name").data (by decide) (Or.inl (by decide))⟩

/-- C4: a double-quoted token that is not known (exactly or
lowercased), is not a SQL keyword, and does not match the lexical
identifier pattern is emitted single-quoted with every internal single
quote doubled. -/
theorem C4_unknown_token_single_quoted :
    ∀ (registry : Registry) (sql : String) (tok : List Char),
      tok ∈ dqTokens sql.data →
      (knownChars registry).contains tok = false →
      (knownChars registry).contains (tok.map Char.toLower) = false →
      (sqlKeywords.map (fun s => s.data)).contains (tok.map Char.toLower) = false →
      matchesIdentPattern tok = false →
      ('\'' :: (escapeSingle tok ++ ['\''])) <:+:
        (normalizeSQLiteQuotes sql registry).data := by
  intro registry sql tok hmem h1 h2 h3 h4
  have hid : isIdentifierToken (knownChars registry) tok = false := by
    simp only [isIdentifierToken, h1, h2, h3, h4, Bool.false_or, Bool.or_false]
  have hmem2 : tok ∈ dqScan .outside sql.data := hmem
  have h5 := renderDQ_infix_of_mem (knownChars registry) sql.data .outside tok hmem2
  have hrd : renderDQ (knownChars registry) tok =
      '\'' :: (escapeSingle tok ++ ['\'']) := by
    unfold renderDQ
    rw [if_neg (by simp [hid])]
  rw [hrd] at h5
  exact h5

/-- Witness for C4 at a concrete unknown non-identifier token. -/
theorem C4_unknown_token_single_quoted_witness :
    ("it's a b").data ∈ dqTokens ("SELECT \"it's a b\"").data ∧
    matchesIdentPattern ("it's a b").data = false ∧
    ('\'' :: (escapeSingle ("it's a b").data ++ ['\''])) <:+:
      (normalizeSQLiteQuotes "SELECT \"it's a b\"" emptyRegistry).data :=
  ⟨by decide, by decide,
    C4_unknown_token_single_quoted emptyRegistry "SELECT \"it's a b\""
      ("it's a b").data (by decide) (by decide) (by decide) (by decide) (by decide)⟩

/-! ## Single-quoted span lemmas -/

theorem spanSQ_append_self : ∀ (l : List Char) (p : Char),
    (spanSQ p l).1 ++ (spanSQ p l).2 = l := by
  intro l
  induction l with
  | nil => intro p; simp [spanSQ]
  | cons c cs ih =>
    intro p
    by_cases hb : c = '\'' ∧ ¬p = '\\'
    · simp [spanSQ, hb]
    · simp [spanSQ, hb, ih c]

theorem spanSQ_snd_length (p : Char) (l : List Char) :
    (spanSQ p l).2.length ≤ l.length := by
  have h := congrArg List.length (spanSQ_append_self l p)
  simp only [List.length_append] at h
  omega

theorem spanSQ_refeed : ∀ (l : List Char) (p : Char) (X : List Char),
    (spanSQ p l).2 ≠ [] →
    spanSQ p ((spanSQ p l).1 ++ X) = ((spanSQ p l).1, X) := by
  intro l
  induction l with
  | nil => intro p X h; simp [spanSQ] at h
  | cons c cs ih =>
    intro p X h
    by_cases hb : c = '\'' ∧ ¬p = '\\'
    · simp [spanSQ, hb]
    · have h2 : (spanSQ c cs).2 ≠ [] := by simpa [spanSQ, hb] using h
      simp [spanSQ, hb, ih c X h2]

/-! ## Scan decompositions through the span and token boundary -/

theorem normScan_inSQ (known : List (List Char)) :
    ∀ (cs : List Char) (p : Char),
      normScan known (.inSQ p) cs =
        (spanSQ p cs).1 ++ normScan known .outside (spanSQ p cs).2 := by
  intro cs
  induction cs with
  | nil => intro p; simp [normScan, spanSQ]
  | cons c cs ih =>
    intro p
    by_cases hb : c = '\'' ∧ ¬p = '\\'
    · simp [normScan, spanSQ, hb]
    · simp [normScan, spanSQ, hb, ih c]

theorem dqScan_inSQ : ∀ (cs : List Char) (p : Char),
    dqScan (.inSQ p) cs = dqScan .outside (spanSQ p cs).2 := by
  intro cs
  induction cs with
  | nil => intro p; simp [dqScan, spanSQ]
  | cons c cs ih =>
    intro p
    by_cases hb : c = '\'' ∧ ¬p = '\\'
    · simp [dqScan, spanSQ, hb]
    · simp [dqScan, spanSQ, hb, ih c]

theorem dqClosed_inSQ : ∀ (cs : List Char) (p : Char),
    dqClosed (.inSQ p) cs = dqClosed .outside (spanSQ p cs).2 := by
  intro cs
  induction cs with
  | nil => intro p; simp [dqClosed, spanSQ]
  | cons c cs ih =>
    intro p
    by_cases hb : c = '\'' ∧ ¬p = '\\'
    · simp [dqClosed, spanSQ, hb]
    · simp [dqClosed, spanSQ, hb, ih c]

theorem normScan_inDQ (known : List (List Char)) :
    ∀ (cs : List Char) (acc : List Char),
      normScan known (.inDQ acc) cs =
        renderDQ known (acc.reverse ++ cs.takeWhile (fun x => !(x = '"'))) ++
        (match cs.dropWhile (fun x => !(x = '"')) with
         | [] => []
         | _ :: rs => normScan known .outside rs) := by
  intro cs
  induction cs with
  | nil => intro acc; simp [normScan]
  | cons c cs ih =>
    intro acc
    by_cases hc : c = '"'
    · rw [List.takeWhile_cons_of_neg (by simp [hc]), List.dropWhile_cons_of_neg (by simp [hc])]
      simp [normScan, hc]
    · rw [List.takeWhile_cons_of_pos (by simp [hc]), List.dropWhile_cons_of_pos (by simp [hc])]
      simp only [normScan, hc, if_false]
      rw [ih (c :: acc)]
      simp

theorem dqScan_inDQ : ∀ (cs : List Char) (acc : List Char),
    dqScan (.inDQ acc) cs =
      (acc.reverse ++ cs.takeWhile (fun x => !(x = '"'))) ::
      (match cs.dropWhile (fun x => !(x = '"')) with
       | [] => []
       | _ :: rs => dqScan .outside rs) := by
  intro cs
  induction cs with
  | nil => intro acc; simp [dqScan]
  | cons c cs ih =>
    intro acc
    by_cases hc : c = '"'
    · rw [List.takeWhile_cons_of_neg (by simp [hc]), List.dropWhile_cons_of_neg (by simp [hc])]
      simp [dqScan, hc]
    · rw [List.takeWhile_cons_of_pos (by simp [hc]), List.dropWhile_cons_of_pos (by simp [hc])]
      simp only [dqScan, hc, if_false]
      rw [ih (c :: acc)]
      simp

theorem dqClosed_inDQ : ∀ (cs : List Char) (acc : List Char),
    dqClosed (.inDQ acc) cs =
      (match cs.dropWhile (fun x => !(x = '"')) with
       | [] => false
       | _ :: rs => dqClosed .outside rs) := by
  intro cs
  induction cs with
  | nil => intro acc; simp [dqClosed]
  | cons c cs ih =>
    intro acc
    by_cases hc : c = '"'
    · rw [List.dropWhile_cons_of_neg (by simp [hc])]
      simp [dqClosed, hc]
    · rw [List.dropWhile_cons_of_pos (by simp [hc])]
      simp only [dqClosed, hc, if_false]
      exact ih (c :: acc)


/-! ## The scan output is well-classified and well-terminated -/

/-- When every double-quoted token of the input is classified as an
identifier, the scan output has the same double-quoted tokens and all
its double-quoted spans are closed (the scan terminates an unclosed
final token). -/
theorem normScan_output_wf (known : List (List Char)) :
    ∀ (n : Nat) (l : List Char), l.length ≤ n →
      (∀ tok ∈ dqScan .outside l, isIdentifierToken known tok = true) →
      dqScan .outside (normScan known .outside l) = dqScan .outside l ∧
      dqClosed .outside (normScan known .outside l) = true := by
  intro n
  induction n with
  | zero =>
    intro l hl _
    have hnil : l = [] := List.eq_nil_of_length_eq_zero (Nat.le_zero.mp hl)
    subst hnil
    simp [normScan, dqScan, dqClosed]
  | succ n ih =>
    intro l hl hid
    cases l with
    | nil => simp [normScan, dqScan, dqClosed]
    | cons c cs =>
      have hlen : cs.length ≤ n := by
        simp only [List.length_cons] at hl
        omega
      by_cases hc1 : c = '\''
      · subst hc1
        have hstepd : ∀ X : List Char,
            dqScan ScanState.outside ('\'' :: X) = dqScan .outside (spanSQ '\'' X).2 :=
          fun X => by simp [dqScan, dqScan_inSQ]
        have hstepc : ∀ X : List Char,
            dqClosed ScanState.outside ('\'' :: X) = dqClosed .outside (spanSQ '\'' X).2 :=
          fun X => by simp [dqClosed, dqClosed_inSQ]
        have hnorm : normScan known ScanState.outside ('\'' :: cs) =
            '\'' :: ((spanSQ '\'' cs).1 ++ normScan known .outside (spanSQ '\'' cs).2) := by
          simp [normScan, normScan_inSQ]
        rw [hstepd cs] at hid
        by_cases hr : (spanSQ '\'' cs).2 = []
        · have hs : (spanSQ '\'' cs).1 = cs := by
            have h0 := spanSQ_append_self cs '\''
            rw [hr, List.append_nil] at h0
            exact h0
          have hout : normScan known ScanState.outside ('\'' :: cs) = '\'' :: cs := by
            rw [hnorm, hr, hs]
            simp [normScan]
          rw [hout]
          refine ⟨rfl, ?_⟩
          rw [hstepc cs, hr]
          simp [dqClosed]
        · have hrefeed :=
            spanSQ_refeed cs '\'' (normScan known .outside (spanSQ '\'' cs).2) hr
          have hIH := ih (spanSQ '\'' cs).2
            (le_trans (spanSQ_snd_length '\'' cs) hlen) hid
          rw [hnorm]
          constructor
          · rw [hstepd ((spanSQ '\'' cs).1 ++ normScan known .outside (spanSQ '\'' cs).2),
              hrefeed, hstepd cs]
            exact hIH.1
          · rw [hstepc ((spanSQ '\'' cs).1 ++ normScan known .outside (spanSQ '\'' cs).2),
              hrefeed]
            exact hIH.2
      · by_cases hc2 : c = '"'
        · subst hc2
          have hdq0 : dqScan ScanState.outside ('"' :: cs) =
              (cs.takeWhile (fun x => !(x = '"'))) ::
              (match cs.dropWhile (fun x => !(x = '"')) with
               | [] => []
               | _ :: rs => dqScan .outside rs) := by
            simp [dqScan, dqScan_inDQ]
          have hidtok :
              isIdentifierToken known (cs.takeWhile (fun x => !(x = '"'))) = true := by
            apply hid
            rw [hdq0]
            exact List.mem_cons_self _ _
          have hrd : renderDQ known (cs.takeWhile (fun x => !(x = '"'))) =
              '"' :: (cs.takeWhile (fun x => !(x = '"')) ++ ['"']) := by
            unfold renderDQ
            rw [if_pos hidtok]
          have hnorm : normScan known ScanState.outside ('"' :: cs) =
              renderDQ known (cs.takeWhile (fun x => !(x = '"'))) ++
              (match cs.dropWhile (fun x => !(x = '"')) with
               | [] => []
               | _ :: rs => normScan known .outside rs) := by
            simp [normScan, normScan_inDQ]
          have htw : ∀ x ∈ cs.takeWhile (fun x => !(x = '"')),
              (fun x => !(x = '"')) x = true :=
            fun x hx => mem_takeWhile_bool cs x hx
          have e1 : ∀ X : List Char,
              ((cs.takeWhile (fun x => !(x = '"')) ++ '"' :: X).takeWhile
                (fun x => !(x = '"'))) = cs.takeWhile (fun x => !(x = '"')) :=
            fun X => takeWhile_append_stop _ htw '"' (by simp) X
          have e2 : ∀ X : List Char,
              ((cs.takeWhile (fun x => !(x = '"')) ++ '"' :: X).dropWhile
                (fun x => !(x = '"'))) = '"' :: X :=
            fun X => dropWhile_append_stop _ htw '"' (by simp) X
          have hout0 : ∀ X : List Char,
              dqScan ScanState.outside
                ('"' :: (cs.takeWhile (fun x => !(x = '"')) ++ '"' :: X)) =
                cs.takeWhile (fun x => !(x = '"')) :: dqScan .outside X := by
            intro X
            have h0 := dqScan_inDQ (cs.takeWhile (fun x => !(x = '"')) ++ '"' :: X) []
            rw [e1 X, e2 X] at h0
            simpa [dqScan] using h0
          have hout1 : ∀ X : List Char,
              dqClosed ScanState.outside
                ('"' :: (cs.takeWhile (fun x => !(x = '"')) ++ '"' :: X)) =
                dqClosed .outside X := by
            intro X
            have h0 := dqClosed_inDQ (cs.takeWhile (fun x => !(x = '"')) ++ '"' :: X) []
            rw [e2 X] at h0
            simpa [dqClosed] using h0
          rcases hdwe : cs.dropWhile (fun x => !(x = '"')) with _ | ⟨d, rs⟩
          · rw [hnorm, hdwe, hrd]
            constructor
            · rw [List.append_nil, hdq0, hdwe]
              have h1 := hout0 []
              simp only [dqScan] at h1 ⊢
              rw [h1]
            · rw [List.append_nil]
              have h1 := hout1 []
              rw [h1]
              simp [dqClosed]
          · have hd : d = '"' := by
              have h0 := dropWhile_head_false cs d rs hdwe
              simpa using h0
            subst hd
            have hlenrs : rs.length ≤ n := by
              have h0 := congrArg List.length
                (List.takeWhile_append_dropWhile (fun x => !(x = '"')) cs)
              rw [hdwe] at h0
              simp only [List.length_append, List.length_cons] at h0
              omega
            have hidrs : ∀ tok ∈ dqScan .outside rs,
                isIdentifierToken known tok = true := by
              intro tok ht
              apply hid
              rw [hdq0, hdwe]
              exact List.mem_cons_of_mem _ ht
            have hIH := ih rs hlenrs hidrs
            have hassoc :
                ('"' :: (cs.takeWhile (fun x => !(x = '"')) ++ ['"'])) ++
                  normScan known .outside rs =
                '"' :: (cs.takeWhile (fun x => !(x = '"')) ++
                  '"' :: normScan known .outside rs) := by
              simp
            rw [hnorm, hdwe, hrd, hassoc]
            constructor
            · rw [hout0, hdq0, hdwe, hIH.1]
            · rw [hout1]
              exact hIH.2
        · have hnorm : normScan known ScanState.outside (c :: cs) =
              c :: normScan known .outside cs := by
            simp [normScan, hc1, hc2]
          have hdq1 : ∀ X : List Char,
              dqScan ScanState.outside (c :: X) = dqScan .outside X :=
            fun X => by simp [dqScan, hc1, hc2]
          have hcl1 : ∀ X : List Char,
              dqClosed ScanState.outside (c :: X) = dqClosed .outside X :=
            fun X => by simp [dqClosed, hc1, hc2]
          rw [hdq1 cs] at hid
          have hIH := ih cs hlen hid
          rw [hnorm]
          constructor
          · rw [hdq1 (normScan known .outside cs), hdq1 cs]
            exact hIH.1
          · rw [hcl1 (normScan known .outside cs)]
            exact hIH.2

/-! ## Claim theorems: normalizer idempotence -/

/-- C5: on input whose double-quoted tokens are all classified as
identifiers (already correctly quoted input), normalization is
idempotent. -/
theorem C5_normalize_idempotent :
    ∀ (registry : Registry) (sql : String),
      (∀ tok ∈ dqTokens sql.data,
        isIdentifierToken (knownChars registry) tok = true) →
      normalizeSQLiteQuotes (normalizeSQLiteQuotes sql registry) registry =
        normalizeSQLiteQuotes sql registry := by
  intro registry sql hid
  have hid2 : ∀ tok ∈ dqScan .outside sql.data,
      isIdentifierToken (knownChars registry) tok = true := hid
  have hwf := normScan_output_wf (knownChars registry) sql.data.length sql.data
    le_rfl hid2
  have hO : normScan (knownChars registry) .outside
      (normScan (knownChars registry) .outside sql.data) =
      normScan (knownChars registry) .outside sql.data := by
    have hidO : ∀ tok ∈ dqScan .outside
        (normScan (knownChars registry) .outside sql.data),
        isIdentifierToken (knownChars registry) tok = true := by
      intro tok ht
      rw [hwf.1] at ht
      exact hid2 tok ht
    exact normScan_id (knownChars registry)
      (normScan (knownChars registry) .outside sql.data) .outside hidO hwf.2
  show (⟨normScan (knownChars registry) .outside
      (normScan (knownChars registry) .outside sql.data)⟩ : String) = _
  rw [hO]
  rfl

/-- Witness for C5 at a concrete already-normalized input. -/
theorem C5_normalize_idempotent_witness :
    (∀ tok ∈ dqTokens ("SELECT \"name\" FROM t").data,
      isIdentifierToken (knownChars emptyRegistry) tok = true) ∧
    normalizeSQLiteQuotes
        (normalizeSQLiteQuotes "SELECT \"name\" FROM t" emptyRegistry) emptyRegistry =
      normalizeSQLiteQuotes "SELECT \"name\" FROM t" emptyRegistry :=
  ⟨by decide, C5_normalize_idempotent emptyRegistry "SELECT \"name\" FROM t" (by decide)⟩


/-! ## Deduplication lemmas -/

theorem mem_dedupKeepFirst : ∀ (l seen : List String) (x : String),
    x ∈ dedupKeepFirst seen l ↔ (x ∈ l ∧ x ∉ seen) := by
  intro l
  induction l with
  | nil => intro seen x; simp [dedupKeepFirst]
  | cons a as ih =>
    intro seen x
    by_cases ha : a ∈ seen
    · simp only [dedupKeepFirst]
      rw [if_pos ha, ih seen x]
      constructor
      · rintro ⟨h1, h2⟩
        exact ⟨List.mem_cons_of_mem _ h1, h2⟩
      · rintro ⟨h1, h2⟩
        rcases List.mem_cons.mp h1 with rfl | h1
        · exact absurd ha h2
        · exact ⟨h1, h2⟩
    · simp only [dedupKeepFirst]
      rw [if_neg ha]
      constructor
      · intro h
        rcases List.mem_cons.mp h with rfl | h
        · exact ⟨List.mem_cons_self _ _, ha⟩
        · have := (ih (a :: seen) x).mp h
          exact ⟨List.mem_cons_of_mem _ this.1,
            fun hx => this.2 (List.mem_cons_of_mem _ hx)⟩
      · rintro ⟨h1, h2⟩
        by_cases hxa : x = a
        · exact hxa ▸ List.mem_cons_self _ _
        · rcases List.mem_cons.mp h1 with rfl | h1
          · exact absurd rfl hxa
          · refine List.mem_cons_of_mem _ ((ih (a :: seen) x).mpr ⟨h1, ?_⟩)
            intro hx
            rcases List.mem_cons.mp hx with rfl | hx
            · exact hxa rfl
            · exact h2 hx

theorem nodup_dedupKeepFirst : ∀ (l seen : List String),
    (dedupKeepFirst seen l).Nodup := by
  intro l
  induction l with
  | nil => intro seen; simp [dedupKeepFirst]
  | cons a as ih =>
    intro seen
    by_cases ha : a ∈ seen
    · simp only [dedupKeepFirst]
      rw [if_pos ha]
      exact ih seen
    · simp only [dedupKeepFirst]
      rw [if_neg ha]
      refine List.nodup_cons.mpr ⟨?_, ih (a :: seen)⟩
      intro hmem
      have := (mem_dedupKeepFirst as (a :: seen) a).mp hmem
      exact this.2 (List.mem_cons_self a seen)

theorem sublist_dedupKeepFirst : ∀ (l seen : List String),
    List.Sublist (dedupKeepFirst seen l) l := by
  intro l
  induction l with
  | nil => intro seen; simp [dedupKeepFirst]
  | cons a as ih =>
    intro seen
    by_cases ha : a ∈ seen
    · simp only [dedupKeepFirst]
      rw [if_pos ha]
      exact List.sublist_cons_of_sublist a (ih seen)
    · simp only [dedupKeepFirst]
      rw [if_neg ha]
      exact List.Sublist.cons₂ a (ih (a :: seen))

/-! ## Claim theorems: error classifiers -/

/-- C8 counterexample: for the message `column a"b not found` (no
invalid-identifier pattern), the captured name is `a"b`, which has no
surrounding quote characters, yet the classifier removes the interior
quote and returns `["ab"]` — it strips every quote character, not just
surrounding ones. -/
theorem C8_counterexample_interior_quote :
    collectInvalidIdents ("column a\"b not found").data = [] ∧
    captureColumnFallback ("column a\"b not found").data = some ("a\"b").data ∧
    isColumnNotFound "column a\"b not found" = some ⟨["ab"]⟩ ∧
    ("ab" : String) ≠ "a\"b" := by
  decide

/-- C8 (amended): when the invalid-identifier pattern occurs, the
classifier returns all matched names deduplicated in first-seen order
(without duplicates, a subsequence of the raw capture list with the
same members) — in particular `invalid identifier 'FOO'` yields
`["FOO"]` — and when the pattern is absent but the fallback
`column <name> not found` pattern captures a name, it returns that
name with every quote character removed. -/
theorem C8_column_not_found_classifier :
    (∀ msg : String, collectInvalidIdents msg.data ≠ [] →
      ∃ r, isColumnNotFound msg = some r ∧
        r.missingColumns.Nodup ∧
        List.Sublist r.missingColumns
          ((collectInvalidIdents msg.data).map (fun l => (⟨l⟩ : String))) ∧
        (∀ x, x ∈ r.missingColumns ↔
          x ∈ (collectInvalidIdents msg.data).map (fun l => (⟨l⟩ : String)))) ∧
    isColumnNotFound "invalid identifier 'FOO'" = some ⟨["FOO"]⟩ ∧
    (∀ (msg : String) (c : List Char),
      collectInvalidIdents msg.data = [] →
      testColumnDotStar msg.data = true →
      captureColumnFallback msg.data = some c →
      isColumnNotFound msg = some ⟨[⟨stripQuotesAll c⟩]⟩) := by
  refine ⟨?_, by decide, ?_⟩
  · intro msg hne
    refine ⟨⟨dedupKeepFirst []
      ((collectInvalidIdents msg.data).map (fun l => (⟨l⟩ : String)))⟩, ?_, ?_, ?_, ?_⟩
    · unfold isColumnNotFound
      rw [if_pos (by simp [List.isEmpty_iff, hne])]
    · exact nodup_dedupKeepFirst _ []
    · exact sublist_dedupKeepFirst _ []
    · intro x
      rw [mem_dedupKeepFirst]
      simp
  · intro msg c h0 h1 h2
    unfold isColumnNotFound
    rw [if_neg (by simp [List.isEmpty_iff, h0]), if_pos h1, h2]

/-- Witness for C8: a message with a repeated capture (deduplicated),
and the fallback message of the counterexample. -/
theorem C8_column_not_found_classifier_witness :
    collectInvalidIdents
        ("invalid identifier 'A' invalid identifier 'B' invalid identifier 'A'").data ≠ [] ∧
    (∃ r, isColumnNotFound
        "invalid identifier 'A' invalid identifier 'B' invalid identifier 'A'" = some r ∧
      r.missingColumns.Nodup ∧
      List.Sublist r.missingColumns
        ((collectInvalidIdents
          ("invalid identifier 'A' invalid identifier 'B' invalid identifier 'A'").data).map
          (fun l => (⟨l⟩ : String))) ∧
      (∀ x, x ∈ r.missingColumns ↔
        x ∈ (collectInvalidIdents
          ("invalid identifier 'A' invalid identifier 'B' invalid identifier 'A'").data).map
          (fun l => (⟨l⟩ : String)))) ∧
    isColumnNotFound "column 'x' not found" =
      some ⟨[⟨stripQuotesAll ("'x'").data⟩]⟩ :=
  ⟨by decide,
   C8_column_not_found_classifier.1 _ (by decide),
   C8_column_not_found_classifier.2.2 "column 'x' not found" ("'x'").data
     (by decide) (by decide) (by decide)⟩

/-- C9 counterexample: for `no such column: "5abc"` (no other
quote-syntax condition applies) the classifier returns a
needsSingleQuotes hint although the captured name `5abc` does not
start with an uppercase letter — the code only compares the first
character with its own uppercase form, which holds for digits. -/
theorem C9_counterexample_digit_start :
    isQuoteSyntaxError "no such column: \"5abc\"" =
      some ⟨"no such column: \"5abc\"", some true, none⟩ ∧
    noSuchColumnCapture ("no such column: \"5abc\"").data = some ("5abc").data ∧
    Char.isUpper '5' = false ∧
    isAllCapsUnderscore ("5abc").data = false ∧
    containsCI unrecognizedLit ("no such column: \"5abc\"").data = false ∧
    ((containsCI syntaxErrorLit ("no such column: \"5abc\"").data ||
      containsCI nearLit ("no such column: \"5abc\"").data) &&
      ("no such column: \"5abc\"").data.contains '"') = false := by
  decide

/-- C9 (amended): for a "no such column" message with a quoted
captured column name, not matching the other quote-syntax conditions,
the classifier returns a needsSingleQuotes hint exactly when the
captured name's first character equals its own uppercase form and the
name is not an all-caps/underscore identifier. -/
theorem C9_quote_syntax_heuristic :
    ∀ (msg : String) (col : List Char),
      containsCI unrecognizedLit msg.data = false →
      ((containsCI syntaxErrorLit msg.data || containsCI nearLit msg.data) &&
        msg.data.contains '"') = false →
      containsCI noSuchColumnLit msg.data = true →
      noSuchColumnCapture msg.data = some col →
      ((isQuoteSyntaxError msg = some ⟨msg, some true, none⟩) ↔
        (Char.toUpper (col.headD ' ') = col.headD ' ' ∧
          isAllCapsUnderscore col = false ∧ col ≠ [])) := by
  intro msg col h1 h2 h3 h4
  have hiff : quoteHeuristic col = true ↔
      (Char.toUpper (col.headD ' ') = col.headD ' ' ∧
        isAllCapsUnderscore col = false ∧ col ≠ []) := by
    cases col with
    | nil => simp [quoteHeuristic]
    | cons c rest => simp [quoteHeuristic, and_assoc]
  rw [← hiff]
  unfold isQuoteSyntaxError
  rw [if_neg (by simp [h1])]
  by_cases hq : quoteHeuristic col = true
  · rw [if_pos (by rw [h4]; simp [h3, hq])]
    simp [hq]
  · rw [if_neg (by rw [h4]; simp [hq])]
    rw [if_neg (by simp only [h2]; exact Bool.false_ne_true)]
    simp [hq]

/-- Witness for C9 at a concrete PascalCase capture. -/
theorem C9_quote_syntax_heuristic_witness :
    containsCI unrecognizedLit ("no such column: \"Technology\"").data = false ∧
    ((containsCI syntaxErrorLit ("no such column: \"Technology\"").data ||
      containsCI nearLit ("no such column: \"Technology\"").data) &&
      ("no such column: \"Technology\"").data.contains '"') = false ∧
    containsCI noSuchColumnLit ("no such column: \"Technology\"").data = true ∧
    noSuchColumnCapture ("no such column: \"Technology\"").data =
      some ("Technology").data ∧
    ((isQuoteSyntaxError "no such column: \"Technology\"" =
        some ⟨"no such column: \"Technology\"", some true, none⟩) ↔
      (Char.toUpper (("Technology").data.headD ' ') = ("Technology").data.headD ' ' ∧
        isAllCapsUnderscore ("Technology").data = false ∧ ("Technology").data ≠ [])) :=
  ⟨by decide, by decide, by decide, by decide,
   C9_quote_syntax_heuristic "no such column: \"Technology\"" ("Technology").data
     (by decide) (by decide) (by decide) (by decide)⟩

end SqlValidate
